import Mathlib

/-!
Shallow embedding of the serverless ETL reporting pipeline
(`src/pipeline/ETL/extract.py`, `transform.py`, `partition_transactions.py`,
`load.py`, `pipeline.py`, and `src/pipeline/report-lambda/generate_report.py`).

Timestamps are modelled as natural numbers (seconds since the Unix epoch),
monetary amounts as rationals, and nullable database/dataframe cells as
`Option` values.  The S3 watermark object is modelled as an `Option Nat`
state value threaded through the run.
-/

namespace ETL

/-- A row of `FACT_Transaction` as it sits in the source database.
Cells other than the primary key may be NULL, hence `Option`. -/
structure Fact where
  transaction_id : Option Int
  at_ts : Option Nat
  total : Option ℚ
  truck_id : Option Int
  payment_method_id : Option Int
deriving DecidableEq

/-- A row of `DIM_Truck` (dimension keys and descriptive attributes). -/
structure Truck where
  truck_id : Int
  truck_name : String
  truck_description : Option String
  has_card_reader : Bool
  fsa_rating : Option Int
deriving DecidableEq

/-- A row of `DIM_Payment_Method`. -/
structure PaymentMethod where
  payment_method_id : Int
  payment_method : String
deriving DecidableEq

/-- One row of the joined dataframe produced by `extract_data`'s SELECT:
fact columns followed by the joined truck and payment-method columns.
`at_ts` models the `at` column (a Python keyword-free rename). -/
structure Row where
  transaction_id : Option Int
  at_ts : Option Nat
  total : Option ℚ
  truck_id : Option Int
  payment_method_id : Option Int
  truck_name : String
  truck_description : Option String
  has_card_reader : Bool
  fsa_rating : Option Int
  payment_method : String
deriving DecidableEq

/-- Build the joined row selected by the query in `extract_data`. -/
def joinRow (f : Fact) (t : Truck) (p : PaymentMethod) : Row :=
  ⟨f.transaction_id, f.at_ts, f.total, f.truck_id, f.payment_method_id,
   t.truck_name, t.truck_description, t.has_card_reader, t.fsa_rating,
   p.payment_method⟩

/-- The two inner joins of `extract_data`'s query
(`JOIN DIM_Truck ON ft.truck_id = dt.truck_id` and
`JOIN DIM_Payment_Method ON ft.payment_method_id = pm.payment_method_id`).
A NULL foreign key matches nothing, as in SQL. -/
def sqlJoin (facts : List Fact) (trucks : List Truck)
    (pms : List PaymentMethod) : List Row :=
  facts.flatMap fun f =>
    (trucks.filter fun t =>
        decide (f.truck_id = some t.truck_id)).flatMap fun t =>
      (pms.filter fun p =>
          decide (f.payment_method_id = some p.payment_method_id)).map fun p =>
        joinRow f t p

/-- SQL three-valued comparison `ft.at > since`: a NULL `at` never satisfies
the WHERE predicate. -/
def sqlAtGt (a : Option Nat) (t : Nat) : Bool :=
  match a with
  | some x => decide (t < x)
  | none => false

/-- MySQL `ORDER BY ft.at` ascending sorts NULLs first; this is the row order
relation used to model the ORDER BY clause. -/
def optLe : Option Nat → Option Nat → Prop
  | none, _ => True
  | some _, none => False
  | some a, some b => a ≤ b

instance : DecidableRel optLe := fun a b =>
  match a, b with
  | none, _ => isTrue trivial
  | some _, none => isFalse id
  | some x, some y => inferInstanceAs (Decidable (x ≤ y))

/-- Order on joined rows induced by the `at` column. -/
def rowLe (r s : Row) : Prop := optLe r.at_ts s.at_ts

instance : DecidableRel rowLe := fun r s =>
  inferInstanceAs (Decidable (optLe r.at_ts s.at_ts))

instance : IsTotal Row rowLe :=
  ⟨fun r s => by
    unfold rowLe
    cases r.at_ts <;> cases s.at_ts <;> simp [optLe]
    exact Nat.le_total _ _⟩

instance : IsTrans Row rowLe :=
  ⟨fun a b c hab hbc => by
    unfold rowLe at *
    cases ha : a.at_ts <;> cases hb : b.at_ts <;> cases hc : c.at_ts <;>
      simp_all [optLe]
    omega⟩

/-- `extract_data` (`extract.py:84`): joined SELECT, optional incremental
WHERE clause (added only when `since_timestamp` is truthy), and
`ORDER BY ft.at`. -/
def extract_data (facts : List Fact) (trucks : List Truck)
    (pms : List PaymentMethod) (since_timestamp : Option Nat) : List Row :=
  let joined := sqlJoin facts trucks pms
  let filtered :=
    match since_timestamp with
    | some t => joined.filter fun r => sqlAtGt r.at_ts t
    | none => joined
  List.insertionSort rowLe filtered

/-- `get_last_processed_timestamp` (`extract.py:36`): read the watermark
object (modelled as the `stored` state); an absent key is the first run
(`none`); otherwise add one second to the stored timestamp. -/
def get_last_processed_timestamp (stored : Option Nat) : Option Nat :=
  stored.map (· + 1)

/-- `save_last_processed_timestamp` (`extract.py:68`): overwrite the
watermark object with the given timestamp. -/
def save_last_processed_timestamp (timestamp : Nat) : Option Nat :=
  some timestamp

/-- `transactions_df['at'].max()`: maximum of the non-null `at` values
(pandas `max` skips NaN/NaT). -/
def maxAt (df : List Row) : Nat :=
  df.foldr (fun r m => match r.at_ts with | some a => max a m | none => m) 0

/-- `main_extract` (`extract.py:118`): read and adjust the watermark, run the
incremental query, and — whenever at least one row came back — immediately
save the batch's maximum `at` as the new watermark.  Returns the new
watermark state together with the extracted dataframe. -/
def main_extract (facts : List Fact) (trucks : List Truck)
    (pms : List PaymentMethod) (stored : Option Nat) : Option Nat × List Row :=
  let last_timestamp := get_last_processed_timestamp stored
  let transactions_df := extract_data facts trucks pms last_timestamp
  if transactions_df.isEmpty then (stored, transactions_df)
  else (save_last_processed_timestamp (maxAt transactions_df), transactions_df)

/-- `df['total'] = df['total'].astype(float) / 100` (`transform.py:21`):
convert the amount from integer minor-units to decimal major-units. -/
def convertTotal (r : Row) : Row :=
  { r with total := r.total.map fun q => q / 100 }

/-- The `duplicate_check_cols` key `['at', 'truck_id', 'payment_method_id',
'total']` of `transform.py:30`. -/
def dedupKey (r : Row) : Option Nat × Option Int × Option Int × Option ℚ :=
  (r.at_ts, r.truck_id, r.payment_method_id, r.total)

/-- `df.drop_duplicates(subset=duplicate_check_cols, keep='first')`
(`transform.py:37`): keep the first row of each key by input order.
`seen` accumulates the keys already kept. -/
def drop_duplicates :
    List Row → List (Option Nat × Option Int × Option Int × Option ℚ) →
      List Row
  | [], _ => []
  | r :: rs, seen =>
    if dedupKey r ∈ seen then drop_duplicates rs seen
    else r :: drop_duplicates rs (dedupKey r :: seen)

/-- The `critical_columns` NULL check of `transform.py:40-42`. -/
def criticalOk (r : Row) : Bool :=
  r.transaction_id.isSome && r.at_ts.isSome && r.total.isSome &&
    r.truck_id.isSome && r.payment_method_id.isSome

/-- `clean_data` (`transform.py:10`): drop NULL/zero totals, convert
minor-units to major-units, (re)parse `at` and `has_card_reader` — both
identities here since the columns are already typed — deduplicate on
(at, truck_id, payment_method_id, total) keeping the first occurrence,
then drop rows with NULLs in the critical columns. -/
def clean_data (df : List Row) : List Row :=
  let df1 := df.filter fun r => r.total.isSome
  let df2 := df1.filter fun r => decide (r.total ≠ some 0)
  let df3 := df2.map convertTotal
  let df4 := drop_duplicates df3 []
  df4.filter criticalOk

/-- Civil-calendar conversion of a day count since 1970-01-01 to
(year, month, day); the era-based algorithm used by standard datetime
libraries, specialised to non-negative day numbers. -/
def civilFromDays (z : Nat) : Nat × Nat × Nat :=
  let z' := z + 719468
  let era := z' / 146097
  let doe := z' % 146097
  let yoe := (doe - doe / 1460 + doe / 36524 - doe / 146096) / 365
  let y := yoe + era * 400
  let doy := doe - (365 * yoe + yoe / 4 - yoe / 100)
  let mp := (5 * doy + 2) / 153
  let d := doy - (153 * mp + 2) / 5 + 1
  let m := if mp < 10 then mp + 3 else mp - 9
  (if m ≤ 2 then y + 1 else y, m, d)

/-- `df['at'].dt.year / .dt.month / .dt.day` for one timestamp:
the (year, month, day) partition key of an event time. -/
def dateKeyOf (t : Nat) : Nat × Nat × Nat :=
  civilFromDays (t / 86400)

/-- Partition key of a row (defined on rows with a non-null `at`). -/
def rowDateKey (r : Row) : Nat × Nat × Nat :=
  dateKeyOf (r.at_ts.getD 0)

/-- Ascending order on (year, month, day) keys, as `groupby` iterates. -/
def keyLe (a b : Nat × Nat × Nat) : Prop :=
  a.1 < b.1 ∨ (a.1 = b.1 ∧
    (a.2.1 < b.2.1 ∨ (a.2.1 = b.2.1 ∧ a.2.2 ≤ b.2.2)))

instance : DecidableRel keyLe := fun a b => by
  unfold keyLe; infer_instance

/-- `partition_transactions` (`partition_transactions.py:34`): derive the
year/month/day columns from `at`, group by them (pandas drops rows whose
key contains NaN, i.e. a NaT `at`, and iterates keys in ascending order;
each group keeps the input row order), and strip the three derived columns
from each group before it is written. -/
def partition_transactions (df : List Row) :
    List ((Nat × Nat × Nat) × List Row) :=
  let tagged := df.filterMap fun r => r.at_ts.map fun t => (r, dateKeyOf t)
  let keys := List.insertionSort keyLe (tagged.map Prod.snd).dedup
  keys.map fun k =>
    (k, (tagged.filter fun p => decide (p.2 = k)).map Prod.fst)

/-- Observable outcome of one pipeline run (`pipeline.py`):
the watermark object state, the partitions durably appended by the load
step, which stages ran, whether the watermark `put` was issued, and
whether the run finished without an exception. -/
structure RunResult where
  watermark : Option Nat
  published : List ((Nat × Nat × Nat) × List Row)
  ranTransform : Bool
  ranPartition : Bool
  ranLoad : Bool
  calledWatermarkPut : Bool
  success : Bool
deriving DecidableEq

/-- One run of `pipeline.py`: `main_extract` (which already saved the new
watermark whenever it extracted any rows), early exit when zero rows came
back, otherwise transform, partition, and the S3 load.  `publishOk`
injects the outcome of the partition-write/upload I/O: when it fails the
run aborts with nothing durably appended, but the watermark keeps the
value `main_extract` stored. -/
def runPipeline (facts : List Fact) (trucks : List Truck)
    (pms : List PaymentMethod) (publishOk : Bool) (stored : Option Nat) :
    RunResult :=
  let res := main_extract facts trucks pms stored
  if res.2.isEmpty then
    ⟨stored, [], false, false, false, false, true⟩
  else
    let cleaned := clean_data res.2
    let parts := partition_transactions cleaned
    if publishOk then ⟨res.1, parts, true, true, true, true, true⟩
    else ⟨res.1, [], true, true, true, true, false⟩

/-- A sequence of scheduled runs, each with its own source contents and
publish outcome, threading the watermark state. -/
def pipelineRuns :
    List (List Fact × List Truck × List PaymentMethod × Bool) →
      Option Nat → Option Nat
  | [], wm => wm
  | (f, t, p, ok) :: rest, wm =>
    pipelineRuns rest (runPipeline f t p ok wm).watermark

/-- Order on watermark states: an absent watermark precedes everything. -/
def wmLe : Option Nat → Option Nat → Prop
  | none, _ => True
  | some _, none => False
  | some a, some b => a ≤ b

/-- `df['total']` as a numeric value for aggregation; pandas sums skip
NaN, so a NULL contributes 0. -/
def totalOf (r : Row) : ℚ := r.total.getD 0

/-- `df['total'].sum()` (skipna). -/
def sumTotal (df : List Row) : ℚ := (df.map totalOf).sum

/-- `df['total'].count()`: number of non-null totals (the `count`
aggregator pandas uses in `.agg`). -/
def countTotal (df : List Row) : Nat :=
  (df.filter fun r => r.total.isSome).length

/-- Round-half-to-even to an integer, as numpy/pandas rounding does. -/
def roundHalfEven (x : ℚ) : Int :=
  let n := ⌊x⌋
  let r := x - (n : ℚ)
  if r < 1 / 2 then n
  else if 1 / 2 < r then n + 1
  else if n % 2 = 0 then n else n + 1

/-- `.round(2)`: round to two decimal places. -/
def round2 (x : ℚ) : ℚ := (roundHalfEven (x * 100) : ℚ) / 100

/-- One row of the `truck_stats` aggregate / the `all_trucks` entries of
`generate_report.py:104-112`. -/
structure TruckStat where
  name : String
  revenue : ℚ
  transactions : Nat
  avg_transaction : ℚ
deriving DecidableEq

/-- The per-method entry of the `payment_methods` dict
(`generate_report.py:133-138`). -/
structure PMStat where
  count : Nat
  revenue : ℚ
  percentage : ℚ
  processing_cost : ℚ
deriving DecidableEq

/-- The metrics dict returned by `calculate_metrics`.  The empty-input
branch of the source omits the `total_card_costs` and `net_revenue` keys,
modelled by `none`. -/
structure Metrics where
  date : String
  total_revenue : ℚ
  total_transactions : Nat
  best_truck : String
  best_truck_revenue : ℚ
  worst_truck : String
  worst_truck_revenue : ℚ
  payment_methods : List (String × PMStat)
  average_transaction : ℚ
  all_trucks : List TruckStat
  total_card_costs : Option ℚ
  net_revenue : Option ℚ
deriving DecidableEq

/-- Distinct truck names in first-occurrence order; the `groupby`
('truck_name') key set (its sorted iteration order only permutes the
aggregate rows and is irrelevant to every property below). -/
def truckNames (df : List Row) : List String :=
  (df.map fun r => r.truck_name).dedup

/-- The rows of one truck's group. -/
def truckRows (df : List Row) (name : String) : List Row :=
  df.filter fun r => decide (r.truck_name = name)

/-- One line of `truck_stats = df.groupby('truck_name').agg({'total':
['sum', 'count', 'mean']}).round(2)`. -/
def truckStatOf (df : List Row) (name : String) : TruckStat :=
  let g := truckRows df name
  ⟨name, round2 (sumTotal g), countTotal g,
    round2 (sumTotal g / (countTotal g : ℚ))⟩

/-- Descending order by revenue
(`truck_stats.sort_values('revenue', ascending=False)`). -/
def revGe (a b : TruckStat) : Prop := b.revenue ≤ a.revenue

instance : DecidableRel revGe := fun a b =>
  inferInstanceAs (Decidable (b.revenue ≤ a.revenue))

/-- The sorted `truck_stats` table. -/
def truck_stats (df : List Row) : List TruckStat :=
  List.insertionSort revGe ((truckNames df).map (truckStatOf df))

/-- Distinct payment-method names, the `groupby('payment_method')` key
set (again modulo the irrelevant sorted iteration order). -/
def methodsOf (df : List Row) : List String :=
  (df.map fun r => r.payment_method).dedup

/-- The rows of one payment method's group. -/
def methodRows (df : List Row) (m : String) : List Row :=
  df.filter fun r => decide (r.payment_method = m)

/-- `method.lower()` over the characters of the name. -/
def lowerStr (s : String) : String := s.map Char.toLower

/-- Python's `pat in s` substring test. -/
def hasSubstr (s pat : String) : Bool :=
  s.data.tails.any fun t => pat.data.isPrefixOf t

/-- One entry of the payment-method breakdown
(`generate_report.py:123-138`): non-null count, skipna revenue, share of
total revenue as a percentage (0 when total revenue is not positive), and
the 2% processing-cost estimate for card-like methods. -/
def pmStatOf (df : List Row) (total_revenue : ℚ) (m : String) : PMStat :=
  let g := methodRows df m
  let revenue := sumTotal g
  ⟨countTotal g, revenue,
    if 0 < total_revenue then revenue / total_revenue * 100 else 0,
    if hasSubstr (lowerStr m) "card" then revenue * (2 / 100) else 0⟩

/-- The placeholder metrics returned for an empty dataframe
(`generate_report.py:72-84`). -/
def emptyMetrics (date : String) : Metrics :=
  ⟨date, 0, 0, "N/A", 0, "N/A", 0, [], 0, [], none, none⟩

/-- `calculate_metrics` (`generate_report.py:70`): placeholder zeros for an
empty day, otherwise totals, the truck performance table with best and
worst performers by revenue, the payment-method breakdown, card processing
costs, and net revenue.  The report date string is passed in (the source
reads the wall clock for it). -/
def calculate_metrics (date : String) (df : List Row) : Metrics :=
  if df.isEmpty then emptyMetrics date
  else
    let total_revenue := sumTotal df
    let stats := truck_stats df
    let best := stats.headD ⟨"N/A", 0, 0, 0⟩
    let worst := stats.getLastD ⟨"N/A", 0, 0, 0⟩
    let payment_methods :=
      (methodsOf df).map fun m => (m, pmStatOf df total_revenue m)
    let total_card_costs :=
      (payment_methods.map fun p => p.2.processing_cost).sum
    ⟨date, total_revenue, df.length, best.name, best.revenue,
      worst.name, worst.revenue, payment_methods,
      sumTotal df / (countTotal df : ℚ), stats,
      some total_card_costs, some (total_revenue - total_card_costs)⟩

/-! ### Concrete fixtures used by witnesses and counterexamples -/

/-- A one-truck dimension table. -/
def trucks0 : List Truck := [⟨1, "T1", none, true, some 5⟩]

/-- A one-method dimension table. -/
def pms0 : List PaymentMethod := [⟨1, "cash"⟩]

/-- A single source transaction at time 10 with amount 500 minor-units. -/
def facts1 : List Fact := [⟨some 1, some 10, some 500, some 1, some 1⟩]

/-- The joined row `extract_data` produces from `facts1`. -/
def row3 : Row :=
  ⟨some 1, some 10, some 500, some 1, some 1, "T1", none, true, some 5, "cash"⟩

/-! ### Extraction lemmas -/

/-- Any row of an incremental extraction has a non-null event timestamp
strictly above the bound. -/
theorem mem_extract_some {facts : List Fact} {trucks : List Truck}
    {pms : List PaymentMethod} {t : Nat} {r : Row}
    (h : r ∈ extract_data facts trucks pms (some t)) :
    ∃ a, r.at_ts = some a ∧ t < a := by
  simp only [extract_data] at h
  have h2 := (List.perm_insertionSort rowLe _).mem_iff.1 h
  rcases List.mem_filter.1 h2 with ⟨-, hgt⟩
  cases ha : r.at_ts with
  | none => rw [ha] at hgt; simp [sqlAtGt] at hgt
  | some a =>
    refine ⟨a, rfl, ?_⟩
    rw [ha] at hgt
    simpa [sqlAtGt] using hgt

/-- The extracted dataframe is sorted ascending by the `at` column. -/
theorem extract_data_sorted (facts : List Fact) (trucks : List Truck)
    (pms : List PaymentMethod) (since : Option Nat) :
    List.Sorted rowLe (extract_data facts trucks pms since) := by
  cases since <;> exact List.sorted_insertionSort rowLe _

/-- A non-null timestamp of a member row bounds `maxAt` from below. -/
theorem le_maxAt_of_mem {df : List Row} {r : Row} {a : Nat}
    (hr : r ∈ df) (ha : r.at_ts = some a) : a ≤ maxAt df := by
  induction df with
  | nil => cases hr
  | cons x xs ih =>
    rcases List.mem_cons.1 hr with h | h
    · subst h
      simp only [maxAt, List.foldr_cons, ha]
      exact Nat.le_max_left _ _
    · have h1 := ih h
      have h2 : maxAt xs ≤ maxAt (x :: xs) := by
        simp only [maxAt, List.foldr_cons]
        cases x.at_ts <;> simp [Nat.le_max_right]
      omega

/-- The watermark state after a run is decided entirely by extraction:
unchanged when nothing was extracted, the batch maximum otherwise,
regardless of the publish outcome. -/
theorem runPipeline_watermark (facts : List Fact) (trucks : List Truck)
    (pms : List PaymentMethod) (ok : Bool) (wm : Option Nat) :
    (runPipeline facts trucks pms ok wm).watermark =
      if (extract_data facts trucks pms
            (get_last_processed_timestamp wm)).isEmpty then wm
      else some (maxAt (extract_data facts trucks pms
            (get_last_processed_timestamp wm))) := by
  unfold runPipeline main_extract save_last_processed_timestamp
  cases h : (extract_data facts trucks pms
      (get_last_processed_timestamp wm)).isEmpty <;> cases ok <;> simp [h]

/-- Reflexivity of the watermark order. -/
theorem wmLe_refl (w : Option Nat) : wmLe w w := by
  cases w <;> simp [wmLe]

/-- Transitivity of the watermark order. -/
theorem wmLe_trans {a b c : Option Nat} (h1 : wmLe a b) (h2 : wmLe b c) :
    wmLe a c := by
  cases a <;> cases b <;> cases c <;> simp_all [wmLe]
  omega

/-- One run never moves the watermark backwards. -/
theorem runPipeline_wm_mono (facts : List Fact) (trucks : List Truck)
    (pms : List PaymentMethod) (ok : Bool) (wm : Option Nat) :
    wmLe wm (runPipeline facts trucks pms ok wm).watermark := by
  rw [runPipeline_watermark]
  cases h : (extract_data facts trucks pms
      (get_last_processed_timestamp wm)).isEmpty with
  | true => simpa [h] using wmLe_refl wm
  | false =>
    simp only [h, Bool.false_eq_true, if_false]
    cases wm with
    | none => trivial
    | some W =>
      have hne : extract_data facts trucks pms
          (get_last_processed_timestamp (some W)) ≠ [] := by
        intro hnil
        rw [hnil] at h
        simp at h
      rcases List.exists_mem_of_ne_nil _ hne with ⟨r, hr⟩
      have hr' : r ∈ extract_data facts trucks pms (some (W + 1)) := hr
      rcases mem_extract_some hr' with ⟨a, ha, hgt⟩
      have hle := le_maxAt_of_mem hr ha
      show W ≤ maxAt _
      omega

/-! ### Claim theorems -/

/-- C1, counterexample: a concrete run whose S3 partition upload fails
(so the run aborts unsuccessfully with nothing published) nevertheless
ends with the stored watermark advanced from `none` to the extracted
batch maximum — `main_extract` had already saved it before any
downstream stage ran. -/
theorem c1_watermark_unchanged_on_failure_cex :
    (runPipeline facts1 trucks0 pms0 false none).success = false
    ∧ (runPipeline facts1 trucks0 pms0 false none).published = []
    ∧ (runPipeline facts1 trucks0 pms0 false none).watermark = some 10
    ∧ ¬(runPipeline facts1 trucks0 pms0 false none).watermark = none := by
  refine ⟨by decide, by decide, by decide, by decide⟩

/-- C1, amended: the watermark is advanced exactly once per run, during
extraction — whenever extraction returns at least one row it becomes the
maximum extracted `at`, before cleaning, partitioning, or publishing run,
and it keeps that value whether or not the publish succeeds; it is left
unchanged only when extraction returns no rows. -/
theorem c1_watermark_advances_at_extraction (facts : List Fact)
    (trucks : List Truck) (pms : List PaymentMethod) (ok ok' : Bool)
    (wm : Option Nat) :
    (runPipeline facts trucks pms ok wm).watermark
      = (main_extract facts trucks pms wm).1
    ∧ (runPipeline facts trucks pms ok wm).watermark
      = (runPipeline facts trucks pms ok' wm).watermark
    ∧ (runPipeline facts trucks pms ok wm).watermark
      = (if (extract_data facts trucks pms
              (get_last_processed_timestamp wm)).isEmpty then wm
         else some (maxAt (extract_data facts trucks pms
              (get_last_processed_timestamp wm)))) := by
  refine ⟨?_, ?_, runPipeline_watermark facts trucks pms ok wm⟩
  · rw [runPipeline_watermark]
    unfold main_extract save_last_processed_timestamp
    cases h : (extract_data facts trucks pms
        (get_last_processed_timestamp wm)).isEmpty <;> simp [h]
  · rw [runPipeline_watermark, runPipeline_watermark]

/-- C3: every row returned by `extract_data` with a lower bound `T` has a
non-null event timestamp strictly greater than `T` (so no row at or
before `T` ever appears), and the returned rows are ordered ascending by
event timestamp. -/
theorem c3_no_lookback (facts : List Fact) (trucks : List Truck)
    (pms : List PaymentMethod) (T : Nat) :
    (∀ r ∈ extract_data facts trucks pms (some T),
        ∃ a, r.at_ts = some a ∧ T < a)
    ∧ List.Sorted rowLe (extract_data facts trucks pms (some T)) :=
  ⟨fun _ hr => mem_extract_some hr,
    extract_data_sorted facts trucks pms (some T)⟩

/-- Witness for C3: the concrete extraction of `facts1` above bound 5
returns `row3`, whose timestamp 10 is strictly greater than 5. -/
theorem c3_no_lookback_witness : ∃ a, row3.at_ts = some a ∧ 5 < a :=
  (c3_no_lookback facts1 trucks0 pms0 5).1 row3 (by decide)

/-- C5: the caller adds exactly one second to the stored watermark, so
the query lower bound for stored watermark `W` is `W + 1`, and no row
with event timestamp equal to `W` is ever returned (hence never
reprocessed). -/
theorem c5_boundary_epsilon (W : Nat) :
    get_last_processed_timestamp (some W) = some (W + 1)
    ∧ ∀ (facts : List Fact) (trucks : List Truck)
        (pms : List PaymentMethod) (r : Row),
        r ∈ extract_data facts trucks pms
            (get_last_processed_timestamp (some W)) →
          r.at_ts ≠ some W := by
  refine ⟨rfl, ?_⟩
  intro facts trucks pms r hr
  rcases mem_extract_some (t := W + 1) hr with ⟨a, ha, hgt⟩
  rw [ha]
  intro hcontra
  injection hcontra with hEq
  omega

/-- Witness for C5 at stored watermark 5: the adjusted bound is 6 and the
concrete extracted row does not carry timestamp 5. -/
theorem c5_boundary_epsilon_witness :
    get_last_processed_timestamp (some 5) = some 6
    ∧ row3.at_ts ≠ some 5 :=
  ⟨(c5_boundary_epsilon 5).1,
    (c5_boundary_epsilon 5).2 facts1 trucks0 pms0 row3 (by decide)⟩

/-- C6: across any sequence of runs (whatever each run's source contents
and publish outcome), the stored watermark is non-decreasing. -/
theorem c6_watermark_monotone
    (runsL : List (List Fact × List Truck × List PaymentMethod × Bool))
    (wm : Option Nat) : wmLe wm (pipelineRuns runsL wm) := by
  induction runsL generalizing wm with
  | nil => exact wmLe_refl wm
  | cons hd tl ih =>
    obtain ⟨f, t, p, ok⟩ := hd
    exact wmLe_trans (runPipeline_wm_mono f t p ok wm) (ih _)

/-- The zero-amount row of the spec's cleaning scenario
(id 1, amount 0, ts 2024-01-01T10:00:00 = epoch 1704103200). -/
def srow1 : Row :=
  ⟨some 1, some 1704103200, some 0, some 1, some 1, "T1", none, true,
    some 5, "cash"⟩

/-- The duplicated row of the scenario (id 2, amount 500 minor-units). -/
def srow2 : Row :=
  ⟨some 2, some 1704103200, some 500, some 1, some 1, "T1", none, true,
    some 5, "cash"⟩

/-- The expected cleaned output row: amount 5 major-units. -/
def srow2c : Row :=
  ⟨some 2, some 1704103200, some 5, some 1, some 1, "T1", none, true,
    some 5, "cash"⟩

/-- C7: on the scenario input — a zero-amount row followed by two
identical amount-500 rows — cleaning drops the zero-amount row and the
second duplicate, converts 500 minor-units to 5 major-units, and returns
exactly the one cleaned row. -/
theorem c7_cleaning_scenario :
    clean_data [srow1, srow2, srow2] = [srow2c] := by
  simp [clean_data, drop_duplicates, dedupKey, convertTotal, criticalOk,
    srow1, srow2, srow2c]
  norm_num

/-- C8: extraction over an empty source returns the empty sequence (not
an error), and any run whose extraction comes back empty halts early with
success: the watermark is unchanged, `put` is not called, and neither
cleaning, partitioning, nor publishing is invoked. -/
theorem c8_no_new_data_halts (trucks : List Truck)
    (pms : List PaymentMethod) (wm : Option Nat) :
    extract_data [] trucks pms (get_last_processed_timestamp wm) = []
    ∧ ∀ (facts : List Fact) (ok : Bool),
        extract_data facts trucks pms
            (get_last_processed_timestamp wm) = [] →
          runPipeline facts trucks pms ok wm
            = ⟨wm, [], false, false, false, false, true⟩ := by
  constructor
  · cases wm <;> rfl
  · intro facts ok h
    unfold runPipeline main_extract
    simp [h]

/-- Witness for C8: the concrete empty-source run with no prior watermark
does nothing and succeeds. -/
theorem c8_no_new_data_halts_witness :
    runPipeline [] trucks0 pms0 true none
      = ⟨none, [], false, false, false, false, true⟩ :=
  (c8_no_new_data_halts trucks0 pms0 none).2 [] true (by rfl)

/-- C9: on an empty day's row set every report metric is a zero or
placeholder — revenue 0, zero transactions, best and worst truck `N/A`,
empty payment-method breakdown — and no error is raised (the function is
total; the two cost keys are absent, modelled as `none`). -/
theorem c9_empty_day_metrics (d : String) :
    calculate_metrics d []
      = ⟨d, 0, 0, "N/A", 0, "N/A", 0, [], 0, [], none, none⟩ := rfl

/-! ### Cleaning lemmas -/

/-- `drop_duplicates` only keeps rows of its input. -/
theorem mem_of_mem_drop_duplicates {xs : List Row}
    {seen : List (Option Nat × Option Int × Option Int × Option ℚ)}
    {x : Row} (h : x ∈ drop_duplicates xs seen) : x ∈ xs := by
  induction xs generalizing seen with
  | nil => cases h
  | cons r rs ih =>
    unfold drop_duplicates at h
    by_cases hk : dedupKey r ∈ seen
    · rw [if_pos hk] at h
      exact List.mem_cons_of_mem _ (ih h)
    · rw [if_neg hk] at h
      rcases List.mem_cons.1 h with h1 | h1
      · exact h1 ▸ List.mem_cons_self _ _
      · exact List.mem_cons_of_mem _ (ih h1)

/-- The keys of a deduplicated list are pairwise distinct and avoid the
already-seen keys. -/
theorem drop_duplicates_keys (xs : List Row)
    (seen : List (Option Nat × Option Int × Option Int × Option ℚ)) :
    ((drop_duplicates xs seen).map dedupKey).Nodup
    ∧ ∀ k ∈ seen, k ∉ (drop_duplicates xs seen).map dedupKey := by
  induction xs generalizing seen with
  | nil => exact ⟨List.nodup_nil, by simp [drop_duplicates]⟩
  | cons r rs ih =>
    unfold drop_duplicates
    by_cases hk : dedupKey r ∈ seen
    · rw [if_pos hk]
      exact ih seen
    · rw [if_neg hk]
      obtain ⟨hnd, hseen⟩ := ih (dedupKey r :: seen)
      refine ⟨?_, ?_⟩
      · simp only [List.map_cons, List.nodup_cons]
        exact ⟨hseen _ (List.mem_cons_self _ _), hnd⟩
      · intro k hkseen
        simp only [List.map_cons, List.mem_cons]
        push_neg
        refine ⟨fun he => hk (he ▸ hkseen), ?_⟩
        exact hseen _ (List.mem_cons_of_mem _ hkseen)

/-- Deduplication is the identity on a list whose keys are already
pairwise distinct and disjoint from the seen set. -/
theorem drop_duplicates_eq_self {xs : List Row}
    {seen : List (Option Nat × Option Int × Option Int × Option ℚ)}
    (h1 : ∀ x ∈ xs, dedupKey x ∉ seen)
    (h2 : (xs.map dedupKey).Nodup) :
    drop_duplicates xs seen = xs := by
  induction xs generalizing seen with
  | nil => rfl
  | cons r rs ih =>
    unfold drop_duplicates
    rw [if_neg (h1 r (List.mem_cons_self _ _))]
    simp only [List.map_cons, List.nodup_cons] at h2
    congr 1
    apply ih
    · intro x hx
      simp only [List.mem_cons]
      push_neg
      refine ⟨?_, h1 x (List.mem_cons_of_mem _ hx)⟩
      intro he
      exact h2.1 (he ▸ List.mem_map_of_mem dedupKey hx)
    · exact h2.2

/-- Every cleaned row has a non-null, non-zero amount and non-null
critical columns. -/
theorem clean_data_mem {df : List Row} {y : Row}
    (hy : y ∈ clean_data df) :
    (∃ q, y.total = some q ∧ q ≠ 0) ∧ criticalOk y = true := by
  simp only [clean_data] at hy
  rcases List.mem_filter.1 hy with ⟨hy4, hcrit⟩
  have hy3 := mem_of_mem_drop_duplicates hy4
  rcases List.mem_map.1 hy3 with ⟨x, hx2, hxy⟩
  rcases List.mem_filter.1 hx2 with ⟨hx1, hne0⟩
  rcases List.mem_filter.1 hx1 with ⟨-, hsome⟩
  rcases Option.isSome_iff_exists.1 hsome with ⟨q, hq⟩
  have hq0 : q ≠ 0 := by
    intro h0
    rw [hq, h0] at hne0
    simp at hne0
  refine ⟨⟨q / 100, ?_, div_ne_zero hq0 (by norm_num)⟩, hcrit⟩
  rw [← hxy]
  simp [convertTotal, hq]

/-- The cleaned output has pairwise-distinct dedup keys. -/
theorem clean_data_keys_nodup (df : List Row) :
    ((clean_data df).map dedupKey).Nodup := by
  have hdd := (drop_duplicates_keys
      (((df.filter fun r => r.total.isSome).filter
          fun r => decide (r.total ≠ some 0)).map convertTotal) []).1
  have hsub : (clean_data df).Sublist
      (drop_duplicates (((df.filter fun r => r.total.isSome).filter
          fun r => decide (r.total ≠ some 0)).map convertTotal) []) := by
    simp only [clean_data]
    exact List.filter_sublist _
  exact (hsub.map dedupKey).nodup hdd

/-- Action of the minor-unit conversion on a dedup key. -/
def convKey (k : Option Nat × Option Int × Option Int × Option ℚ) :
    Option Nat × Option Int × Option Int × Option ℚ :=
  (k.1, k.2.1, k.2.2.1, k.2.2.2.map fun q => q / 100)

/-- Dividing every amount by 100 is injective on dedup keys. -/
theorem convKey_injective : Function.Injective convKey := by
  rintro ⟨a1, b1, c1, d1⟩ ⟨a2, b2, c2, d2⟩ h
  simp only [convKey, Prod.mk.injEq] at h
  obtain ⟨h1, h2, h3, h4⟩ := h
  have hinj : Function.Injective fun q : ℚ => q / 100 := by
    intro x y hxy
    field_simp at hxy
    exact hxy
  have hd : d1 = d2 := Option.map_injective hinj h4
  simp_all

/-- C2, counterexample: cleaning is not idempotent — on a single valid
row with amount 500 minor-units, one cleaning pass yields amount 5, and
a second pass divides by 100 again, yielding 1/20, so
`clean(clean(rows)) ≠ clean(rows)`. -/
theorem c2_clean_idempotent_cex :
    clean_data (clean_data [srow2]) ≠ clean_data [srow2] := by
  simp [clean_data, drop_duplicates, dedupKey, convertTotal, criticalOk,
    srow2]
  norm_num

/-- C2, amended: the filtering and deduplication steps of cleaning are
idempotent, but the minor-unit conversion is not — cleaning an
already-cleaned row set re-applies exactly the divide-by-100 conversion
and changes nothing else: `clean (clean df) = (clean df).map
convertTotal`. -/
theorem c2_clean_twice_converts_again (df : List Row) :
    clean_data (clean_data df) = (clean_data df).map convertTotal := by
  have hmem : ∀ y ∈ clean_data df,
      (∃ q, y.total = some q ∧ q ≠ 0) ∧ criticalOk y = true :=
    fun _ hy => clean_data_mem hy
  have hnd : ((clean_data df).map dedupKey).Nodup :=
    clean_data_keys_nodup df
  conv_lhs => rw [clean_data]
  have h1 : (clean_data df).filter (fun r => r.total.isSome)
      = clean_data df := by
    apply List.filter_eq_self.2
    intro y hy
    rcases (hmem y hy).1 with ⟨q, hq, -⟩
    simp [hq]
  rw [h1]
  have h2 : (clean_data df).filter (fun r => decide (r.total ≠ some 0))
      = clean_data df := by
    apply List.filter_eq_self.2
    intro y hy
    rcases (hmem y hy).1 with ⟨q, hq, hq0⟩
    simp [hq, hq0]
  rw [h2]
  have hcomp : ((clean_data df).map convertTotal).map dedupKey
      = ((clean_data df).map dedupKey).map convKey := by
    simp only [List.map_map]
    rfl
  have hnd' : (((clean_data df).map convertTotal).map dedupKey).Nodup := by
    rw [hcomp]
    exact hnd.map convKey_injective
  have h3 : drop_duplicates ((clean_data df).map convertTotal) []
      = (clean_data df).map convertTotal :=
    drop_duplicates_eq_self (by simp) hnd'
  rw [h3]
  apply List.filter_eq_self.2
  intro y hy
  rcases List.mem_map.1 hy with ⟨x, hx, hxy⟩
  have hcrit := (hmem x hx).2
  subst hxy
  rcases (hmem x hx).1 with ⟨q, hq, -⟩
  simp only [criticalOk, convertTotal, Bool.and_eq_true] at hcrit ⊢
  simp [hq] at hcrit ⊢
  exact hcrit

/-! ### Grouping lemmas, shared by the partitioner and the report -/

/-- Splitting a list into its groups under a key function, one group per
distinct key, is a permutation of the list. -/
theorem flatten_filter_groups_perm {α κ : Type} [DecidableEq κ]
    (g : α → κ) (keys : List κ) (xs : List α) (hnd : keys.Nodup)
    (hcov : ∀ x ∈ xs, g x ∈ keys) :
    ((keys.map fun k => xs.filter fun x => decide (g x = k)).flatten).Perm
      xs := by
  induction keys generalizing xs with
  | nil =>
    have : xs = [] := by
      cases xs with
      | nil => rfl
      | cons a as => exact absurd (hcov a (List.mem_cons_self _ _)) (by simp)
    subst this
    simp
  | cons k ks ih =>
    rcases List.nodup_cons.1 hnd with ⟨hk, hks⟩
    simp only [List.map_cons, List.flatten_cons]
    have htail : ks.map (fun k' => xs.filter fun x => decide (g x = k'))
        = ks.map fun k' =>
            (xs.filter fun x => !decide (g x = k)).filter
              fun x => decide (g x = k') := by
      apply List.map_congr_left
      intro k' hk'
      rw [List.filter_filter]
      apply List.filter_congr
      intro x _
      have hne : ¬k' = k := fun he => hk (he ▸ hk')
      by_cases hxk' : g x = k'
      · have hgk : ¬g x = k := fun hgxk => hne (by rw [← hxk', hgxk])
        simp [hxk', hgk, hne]
      · simp [hxk']
    rw [htail]
    have hcov' : ∀ x ∈ xs.filter fun x => !decide (g x = k), g x ∈ ks := by
      intro x hx
      rcases List.mem_filter.1 hx with ⟨hxm, hneq⟩
      simp only [Bool.not_eq_eq_eq_not, Bool.not_true, decide_eq_false_iff_not]
        at hneq
      rcases List.mem_cons.1 (hcov x hxm) with h | h
      · exact absurd h hneq
      · exact h
    have hperm := ih (xs.filter fun x => !decide (g x = k)) hks hcov'
    exact (hperm.append_left
      (xs.filter fun x => decide (g x = k))).trans
        (List.filter_append_perm _ xs)

/-- Summing a function over the groups of a key function gives the sum
over the whole list. -/
theorem sum_map_groups {α κ : Type} [DecidableEq κ] (g : α → κ)
    (f : α → ℚ) (keys : List κ) (xs : List α) (hnd : keys.Nodup)
    (hcov : ∀ x ∈ xs, g x ∈ keys) :
    (keys.map fun k =>
        ((xs.filter fun x => decide (g x = k)).map f).sum).sum
      = (xs.map f).sum := by
  have hperm := flatten_filter_groups_perm g keys xs hnd hcov
  have hsum := (hperm.map f).sum_eq
  rw [← hsum, List.map_flatten, List.sum_flatten, List.map_map,
    List.map_map]
  rfl

/-- Pulling a common `/ T * c` factor out of a list sum. -/
theorem sum_map_div_mul {κ : Type} (l : List κ) (f : κ → ℚ) (T c : ℚ) :
    (l.map fun k => f k / T * c).sum = (l.map f).sum / T * c := by
  induction l with
  | nil => simp
  | cons a as ih => simp [ih, add_div, add_mul]

/-! ### Partitioner lemmas -/

/-- On rows with non-null timestamps, tagging is a plain pairing map. -/
theorem partition_tagged_eq {rows : List Row}
    (h : ∀ r ∈ rows, r.at_ts.isSome = true) :
    (rows.filterMap fun r => r.at_ts.map fun t => (r, dateKeyOf t))
      = rows.map fun r => (r, rowDateKey r) := by
  induction rows with
  | nil => rfl
  | cons r rs ih =>
    rcases Option.isSome_iff_exists.1 (h r (List.mem_cons_self _ _))
      with ⟨t, ht⟩
    simp only [List.filterMap_cons, List.map_cons, ht, Option.map_some']
    rw [ih fun x hx => h x (List.mem_cons_of_mem _ hx)]
    simp [rowDateKey, ht]

/-- Filtering the tagged pairs on a key and stripping the tag is the same
as filtering the rows on their date key. -/
theorem filter_pair_map_fst (rows : List Row) (k : Nat × Nat × Nat) :
    (((rows.map fun r => (r, rowDateKey r)).filter
        fun p => decide (p.2 = k)).map Prod.fst)
      = rows.filter fun r => decide (rowDateKey r = k) := by
  induction rows with
  | nil => rfl
  | cons r rs ih =>
    simp only [List.map_cons, List.filter_cons]
    by_cases hk : rowDateKey r = k
    · simp [hk, ih]
    · simp [hk, ih]

/-- C4: for a cleaned row set (every timestamp non-null), partitioning is
complete and order-preserving — the concatenation of all groups is a
permutation of the input (no row lost or duplicated), each group is
exactly the input-order-preserving filter of its date key, the group keys
are pairwise distinct (one group per calendar date), and every row's date
key has a group. -/
theorem c4_partition_complete (rows : List Row)
    (h : ∀ r ∈ rows, r.at_ts.isSome = true) :
    (((partition_transactions rows).map Prod.snd).flatten).Perm rows
    ∧ (∀ k gp, (k, gp) ∈ partition_transactions rows →
        gp = rows.filter fun r => decide (rowDateKey r = k))
    ∧ ((partition_transactions rows).map Prod.fst).Nodup
    ∧ ∀ r ∈ rows,
        rowDateKey r ∈ (partition_transactions rows).map Prod.fst := by
  have htag := partition_tagged_eq h
  have hsnd : ((rows.map fun r => (r, rowDateKey r)).map Prod.snd)
      = rows.map rowDateKey := by
    rw [List.map_map]
    rfl
  have hpart : partition_transactions rows
      = (List.insertionSort keyLe (rows.map rowDateKey).dedup).map
          fun k => (k, rows.filter fun r => decide (rowDateKey r = k)) := by
    simp only [partition_transactions, htag, hsnd]
    apply List.map_congr_left
    intro k _
    rw [filter_pair_map_fst]
  have hkperm : (List.insertionSort keyLe (rows.map rowDateKey).dedup).Perm
      (rows.map rowDateKey).dedup := List.perm_insertionSort _ _
  have hknd : (List.insertionSort keyLe (rows.map rowDateKey).dedup).Nodup :=
    hkperm.nodup_iff.2 (List.nodup_dedup _)
  have hkcov : ∀ r ∈ rows,
      rowDateKey r ∈ List.insertionSort keyLe (rows.map rowDateKey).dedup :=
    fun r hr => hkperm.mem_iff.2
      (List.mem_dedup.2 (List.mem_map_of_mem rowDateKey hr))
  have hfst : (partition_transactions rows).map Prod.fst
      = List.insertionSort keyLe (rows.map rowDateKey).dedup := by
    rw [hpart, List.map_map]
    exact List.map_id _
  refine ⟨?_, ?_, ?_, ?_⟩
  · rw [hpart, List.map_map]
    have : ((List.insertionSort keyLe (rows.map rowDateKey).dedup).map
        (Prod.snd ∘ fun k =>
          (k, rows.filter fun r => decide (rowDateKey r = k))))
        = (List.insertionSort keyLe (rows.map rowDateKey).dedup).map
            fun k => rows.filter fun r => decide (rowDateKey r = k) := rfl
    rw [this]
    exact flatten_filter_groups_perm rowDateKey _ rows hknd hkcov
  · intro k gp hmem
    rw [hpart] at hmem
    rcases List.mem_map.1 hmem with ⟨k', -, hk'⟩
    have h1 : k' = k := congrArg Prod.fst hk'
    have h2 := congrArg Prod.snd hk'
    simp only at h2
    rw [← h2, h1]
  · rw [hfst]
    exact hknd
  · intro r hr
    rw [hfst]
    exact hkcov r hr

/-- A second valid source row one day after `srow2c`. -/
def prow2 : Row :=
  ⟨some 3, some 1704189600, some 6, some 1, some 1, "T1", none, true,
    some 5, "card"⟩

/-- Two cleaned rows on consecutive calendar days. -/
def rows4 : List Row := [srow2c, prow2]

/-- Witness for C4: the two-day concrete row set partitions into groups
with pairwise-distinct date keys. -/
theorem c4_partition_complete_witness :
    ((partition_transactions rows4).map Prod.fst).Nodup :=
  (c4_partition_complete rows4 (by decide)).2.2.1

/-! ### Report lemmas -/

/-- The per-method revenues of the breakdown sum to the day's total
revenue. -/
theorem sum_method_revenues (df : List Row) :
    ((methodsOf df).map fun m => sumTotal (methodRows df m)).sum
      = sumTotal df := by
  have hnd : (methodsOf df).Nodup := List.nodup_dedup _
  have hcov : ∀ x ∈ df, x.payment_method ∈ methodsOf df := fun x hx =>
    List.mem_dedup.2 (List.mem_map_of_mem _ hx)
  exact sum_map_groups (fun r => r.payment_method) totalOf
    (methodsOf df) df hnd hcov

/-- C10: for a non-empty day's row set with positive total revenue, the
per-payment-method percentage-of-total values of the report sum to
exactly 100 in exact arithmetic. -/
theorem c10_percentages_sum_100 (d : String) (df : List Row)
    (h1 : df ≠ []) (h2 : 0 < sumTotal df) :
    (((calculate_metrics d df).payment_methods).map
        fun p => p.2.percentage).sum = 100 := by
  have hne : df.isEmpty = false := by
    cases df with
    | nil => exact absurd rfl h1
    | cons a as => rfl
  simp only [calculate_metrics, hne, Bool.false_eq_true, if_false,
    List.map_map]
  have hfun : ((fun p : String × PMStat => p.2.percentage) ∘
      fun m => (m, pmStatOf df (sumTotal df) m))
      = fun m => sumTotal (methodRows df m) / sumTotal df * 100 := by
    funext m
    simp [Function.comp, pmStatOf, if_pos h2]
  rw [hfun, sum_map_div_mul, sum_method_revenues,
    div_self (ne_of_gt h2), one_mul]

/-- Witness for C10: the one-row day with revenue 5 has a single method
whose percentage is 100. -/
theorem c10_percentages_sum_100_witness :
    (((calculate_metrics "2024-01-01" [srow2c]).payment_methods).map
        fun p => p.2.percentage).sum = 100 :=
  c10_percentages_sum_100 "2024-01-01" [srow2c] (by simp)
    (by norm_num [sumTotal, totalOf, srow2c])

end ETL
